import Mathlib

/-!
# Verification of the web-admin client-side reliability layer

Shallow embedding, in Lean 4, of the parts of the `web-admin` repository that
its specification makes claims about:

* the idempotency-key derivation helpers (`stableKey`, `idemHeader`,
  `IdemKey`, `idempotencyKey`, `stableIdem`, `stableIdemForCreateCoupon`)
  and the admin mutations that attach `Idempotency-Key` headers;
* the axios response interceptor of `src/lib/api.ts` (401 handling, the
  `_retry` flag, the single-flight `refreshing` promise, session clearing
  and the login redirect);
* the pure library helpers `apiErrorMessage` (src/lib/apiError.ts) and
  `pickPrimaryImage` (src/lib/productImages.ts).

JavaScript strings are modelled as Lean `String` (one `Char` per code
point), JS numbers occurring in the relevant code as `Int`, and the result
of a JS expression of type `T | null | undefined` as `Option`.  Ambient
runtime state a browser function could secretly consult (the clock, the
random number generator, storage) is reified as an explicit `World`
argument, so that determinism claims become world-independence theorems.
-/

namespace WebAdmin

/-! ## JS primitive values

The idempotency helpers take arguments of type
`string | number | boolean | null | undefined` (possibly nested one level
in arrays).  `JsPrim` models such a primitive value. -/

inductive JsPrim where
  | str (s : String)
  | num (n : Int)
  | bool (b : Bool)
  | null
  | undefinedPrim
  deriving DecidableEq, Repr

/-- Embeds `String(p ?? "")` as applied by `stableKey`: `null`/`undefined` collapse
to the empty string via `?? ""`, other primitives print as JS does. -/
def JsPrim.coalesceString : JsPrim → String
  | .str s => s
  | .num n => toString n
  | .bool b => if b then "true" else "false"
  | .null => ""
  | .undefinedPrim => ""

/-- JS truthiness of a primitive value. -/
def JsPrim.truthy : JsPrim → Bool
  | .str s => !(s == "")
  | .num n => !(n == 0)
  | .bool b => b
  | .null => false
  | .undefinedPrim => false

/-- An argument to the variadic `stableKey(...parts)`: either a primitive or
a one-level array of primitives (the declared parameter type in
`src/lib/idem.ts`). -/
inductive JsArg where
  | prim (p : JsPrim)
  | arr (ps : List JsPrim)
  deriving DecidableEq, Repr

/-- Embeds `parts.flat()`: flatten the one allowed level of array nesting. -/
def flatArgs (parts : List JsArg) : List JsPrim :=
  parts.flatMap fun a =>
    match a with
    | .prim p => [p]
    | .arr ps => ps

/-! ## JS whitespace, `trim` and the `/\s+/g` replacement -/

/-- The characters matched by the regexp class `\s` (ECMAScript WhiteSpace
and LineTerminator): also the set removed by `String.prototype.trim`. -/
def jsWhitespace (c : Char) : Bool :=
  let n := c.toNat
  n == 0x9 || n == 0xA || n == 0xB || n == 0xC || n == 0xD || n == 0x20 ||
  n == 0xA0 || n == 0x1680 || (0x2000 <= n && n <= 0x200A) ||
  n == 0x2028 || n == 0x2029 || n == 0x202F || n == 0x205F ||
  n == 0x3000 || n == 0xFEFF

/-- Embeds `String.prototype.trim`: strip leading and trailing whitespace. -/
def jsTrim (s : String) : String :=
  String.mk (((s.toList.dropWhile jsWhitespace).reverse.dropWhile jsWhitespace).reverse)

/-- The scan performed by `raw.replace(/\s+/g, "_")`: the flag records
whether the previous character belonged to the current whitespace run, so
each maximal run of whitespace characters emits a single underscore. -/
def squashWsAux : Bool → List Char → List Char
  | _, [] => []
  | inRun, c :: rest =>
    if jsWhitespace c then
      if inRun then squashWsAux true rest
      else '_' :: squashWsAux true rest
    else c :: squashWsAux false rest

/-- Embeds `raw.replace(/\s+/g, "_")`. -/
def squashWs (l : List Char) : List Char := squashWsAux false l

/-! ## Ambient runtime state

`World` packages every source of nondeterminism a browser-side function
could consult: the clock (`Date.now`), the random stream (`Math.random`)
and local storage.  A JS function embeds as a Lean function that receives
the `World`; a function whose body never reads it embeds as one that
ignores it, and its determinism is the theorem that its result is
world-independent. -/

structure World where
  now : Nat
  randStream : Nat → Nat
  storage : List (String × String)

/-! ## A stable sort

`Array.prototype.sort` is mandated to be stable (ES2019).  `sortLe` is the
classic stable insertion sort; it models a JS sort with comparator `cmp`
when `le a b` is `cmp(a,b) <= 0`. -/

def insertLe (le : A → A → Bool) (a : A) : List A → List A
  | [] => [a]
  | b :: bs => if le a b then a :: b :: bs else b :: insertLe le a bs

def sortLe (le : A → A → Bool) : List A → List A
  | [] => []
  | a :: as => insertLe le a (sortLe le as)

/-- Lexicographic comparison of strings by code point, the order used by a
default-comparator `Array.prototype.sort` on the ASCII keys occurring here. -/
def charListLe : List Char → List Char → Bool
  | [], _ => true
  | _ :: _, [] => false
  | a :: as, b :: bs =>
    if a.toNat < b.toNat then true
    else if b.toNat < a.toNat then false
    else charListLe as bs

/-- See `charListLe`. -/
def strLe (a b : String) : Bool := charListLe a.toList b.toList

/-! ## The idempotency-key helpers, embedded from the source -/

/-- Embeds `stableKey(...parts)` from `src/lib/idem.ts` (part_010 / part_011):
flatten, stringify with `String(p ?? "")`, join with `":"`, trim, replace
each whitespace run by `"_"`, and truncate to 160 units. -/
def stableKey (parts : List JsArg) : String :=
  let raw := jsTrim (String.intercalate ":" ((flatArgs parts).map JsPrim.coalesceString))
  String.mk ((squashWs raw.toList).take 160)

/-- Embeds `idemHeader(...parts)` from `src/lib/idem.ts`: the
`{ "Idempotency-Key": stableKey(...parts) }` header object. -/
def idemHeader (parts : List JsArg) : List (String × String) :=
  [("Idempotency-Key", stableKey parts)]

/-- The run of `stableKey` in an ambient world `w`: the body reads none of
the world's components, so the embedding ignores `w`. -/
def stableKeyRun (_w : World) (parts : List JsArg) : String :=
  stableKey parts

/-- Embeds `IdemKey(id, action)` from the admin inbox page (part_001):
`` `admin-inbox:${id}:${action}` ``. -/
def IdemKey (id action : String) : String :=
  "admin-inbox:" ++ id ++ ":" ++ action

/-- Embeds `idempotencyKey(orderId, action)` from the admin order pages (part_001):
`` `admin-order:${orderId}:${action}` ``. -/
def idempotencyKey (orderId action : String) : String :=
  "admin-order:" ++ orderId ++ ":" ++ action

/-- Runs of `IdemKey` and `idempotencyKey` in an ambient world: neither
body reads the world. -/
def IdemKeyRun (_w : World) (id action : String) : String :=
  IdemKey id action

/-- See `IdemKeyRun`. -/
def idempotencyKeyRun (_w : World) (orderId action : String) : String :=
  idempotencyKey orderId action

/-- The prefix-style `stableKey(prefix, ...parts)` helper duplicated in the
categories / product-create pages (part_003 line 29, part_006 line 516):
`` `${prefix}:${parts.map((p) => String(p ?? "")).join(":")}` ``. -/
def stableKeyPfx (pfx : String) (parts : List JsPrim) : String :=
  pfx ++ ":" ++ String.intercalate ":" (parts.map JsPrim.coalesceString)

/-- Embeds `stableIdem(prefix, parts)` from the product edit page (part_005 line
131): sort the record's keys, render `k=String(v)` pairs joined by `"&"`,
and prepend `` `${prefix}:` ``. -/
def stableIdem (pfx : String) (parts : List (String × JsPrim)) : String :=
  let keys := sortLe strLe (parts.map Prod.fst)
  let flat := String.intercalate "&"
    (keys.map fun k =>
      k ++ "=" ++ (((parts.find? (fun kv => kv.fst == k)).map Prod.snd).getD .undefinedPrim).coalesceString)
  pfx ++ ":" ++ flat

/-- Embeds `stableIdemForCreateCoupon(args)` from `src/app/admin/coupons/page.tsx`
(line 189): the fixed part list joined with `":"`. -/
def stableIdemForCreateCoupon (code appliesTo dtype : String) (value : Int)
    (startsAtISO : String) (endsAtISO : Option String) : String :=
  String.intercalate ":"
    ["admin-coupon-create", code, appliesTo, dtype, toString value, startsAtISO,
      endsAtISO.getD "no-end"]

/-! ## Admin mutations and their `Idempotency-Key` headers

The admin pages issue their side-effecting mutations through axios with an
explicit headers object.  `HttpRequest` records the parts of such a call
the claims are about: the method, the url (built from `endpoints`), and
the headers.  Request bodies never feed the headers and are not modelled. -/

structure HttpRequest where
  method : String
  url : String
  headers : List (String × String)
  deriving DecidableEq, Repr

/-- First-match header lookup. -/
def headerValue (r : HttpRequest) (name : String) : Option String :=
  (r.headers.find? (fun kv => kv.fst == name)).map Prod.snd

/-- The url builders of `src/lib/endpoints.ts` used by the mutating pages. -/
def endpointApproveSeller (id : String) : String :=
  "/admin/sellers/" ++ id ++ "/approve"

/-- Embeds `endpoints.adminInbox.rejectSeller`. -/
def endpointRejectSeller (id : String) : String :=
  "/admin/sellers/" ++ id ++ "/reject"

/-- Embeds `endpoints.adminInbox.markPayoutPaid`. -/
def endpointMarkPayoutPaid (id : String) : String :=
  "/admin/payouts/" ++ id ++ "/paid"

/-- Embeds `endpoints.adminInbox.rejectPayout`. -/
def endpointRejectPayout (id : String) : String :=
  "/admin/payouts/" ++ id ++ "/reject"

/-- Embeds `endpoints.adminOrders.decide`. -/
def endpointOrderDecide (orderId : String) : String :=
  "/admin/orders/" ++ orderId

/-- Embeds `endpoints.adminOrders.refund`. -/
def endpointOrderRefund (orderId : String) : String :=
  "/admin/orders/" ++ orderId ++ "/refund"

/-- Embeds `endpoints.adminPromos.createForProduct`. -/
def endpointPromoCreate (productId : String) : String :=
  "/admin/products/" ++ productId ++ "/promotions"

/-- JS `a || b` on strings: `b` when `a` is empty (falsy), else `a`. -/
def jsOrStr (a b : String) : String := if a == "" then b else a

/-- Embeds `String.prototype.toLowerCase`, restricted to the ASCII range in which
the category names' key derivation operates. -/
def lowerStr (s : String) : String := String.mk (s.toList.map Char.toLower)

/-- The `action` argument of the order decide mutations. -/
inductive OrderAction where
  | approve
  | reject
  deriving DecidableEq, Repr

/-- The string the `action` literal denotes. -/
def OrderAction.lit : OrderAction → String
  | .approve => "approve"
  | .reject => "reject"

/-- The record literal built by the promotion-create mutation (part_005
line 515): fields in source order, `endsAt` only when present. -/
def promoParts (appliesTo ptype : String) (value : Int) (active : Bool)
    (startsAt : String) (priority : Int) (endsAt : Option String) :
    List (String × JsPrim) :=
  [("appliesTo", .str appliesTo), ("type", .str ptype), ("value", .num value),
    ("active", .bool active), ("startsAt", .str startsAt),
    ("priority", .num priority)] ++
  (match endsAt with
    | some e => [("endsAt", JsPrim.str e)]
    | none => [])

/-- A side-effecting admin mutation at the program point where its request
is built (after the page's local validation has passed).  Constructor
arguments are the in-scope values the call site reads: entity ids, the
action, and the payload fields that feed the idempotency key.  For
`productCreate` the page state beyond `sku` and `name` never reaches the
url or headers and is omitted. -/
inductive AdminMutation where
  | approveSeller (id : String)
  | rejectSeller (id : String)
  | markPayoutPaid (id : String)
  | rejectPayout (id : String)
  | orderDecide (orderId : String) (action : OrderAction)
  | orderRefund (orderId : String)
  | productCreate (sku name : String)
  | categoryCreate (newName : String)
  | couponCreate (code appliesTo dtype : String) (value : Int)
      (startsAtISO : String) (endsAtISO : Option String)
  | promoCreate (productId appliesTo ptype : String) (value : Int)
      (active : Bool) (startsAt : String) (priority : Int)
      (endsAt : Option String)
  deriving DecidableEq, Repr

/-- The request each mutation site issues, embedded call site by call site
(part_001 lines 151-210, 646-668, 1004-1016; part_003 line 65; part_006
line 568; part_005 line 486; coupons page line 307).  The category-create
site throws before posting when the trimmed name is empty, hence `none`
there; every other site posts unconditionally.  The `World` argument
reifies the ambient state none of the sites consult. -/
def mutationRequest (_w : World) : AdminMutation → Option HttpRequest
  | .approveSeller id =>
    some ⟨"POST", endpointApproveSeller id,
      [("Idempotency-Key", IdemKey id "approve-seller")]⟩
  | .rejectSeller id =>
    some ⟨"POST", endpointRejectSeller id,
      [("Idempotency-Key", IdemKey id "reject-seller")]⟩
  | .markPayoutPaid id =>
    some ⟨"POST", endpointMarkPayoutPaid id,
      [("Idempotency-Key", IdemKey id "payout-paid")]⟩
  | .rejectPayout id =>
    some ⟨"POST", endpointRejectPayout id,
      [("Idempotency-Key", IdemKey id "payout-reject")]⟩
  | .orderDecide orderId action =>
    some ⟨"PATCH", endpointOrderDecide orderId,
      [("Idempotency-Key", idempotencyKey orderId action.lit)]⟩
  | .orderRefund orderId =>
    some ⟨"POST", endpointOrderRefund orderId,
      [("Idempotency-Key", idempotencyKey orderId "refund")]⟩
  | .productCreate sku name =>
    some ⟨"POST", "/products",
      [("Idempotency-Key",
        stableKeyPfx "product-create"
          [.str (jsOrStr (jsTrim sku) (jsOrStr (jsTrim name) "no-key"))])]⟩
  | .categoryCreate newName =>
    let name := jsTrim newName
    if name == "" then none
    else
      some ⟨"POST", "/categories",
        [("Idempotency-Key", stableKeyPfx "cat-create" [.str (lowerStr name)])]⟩
  | .couponCreate code appliesTo dtype value startsAtISO endsAtISO =>
    some ⟨"POST", "/admin/coupons",
      [("Idempotency-Key",
        stableIdemForCreateCoupon code appliesTo dtype value startsAtISO endsAtISO)]⟩
  | .promoCreate productId appliesTo ptype value active startsAt priority endsAt =>
    some ⟨"POST", endpointPromoCreate productId,
      [("Idempotency-Key",
        stableIdem ("admin-prod-promo-create:" ++ productId)
          (promoParts appliesTo ptype value active startsAt priority endsAt))]⟩

/-- The key each mutation's header is documented to carry: the derivation
helper of the owning page applied to the operation's stable inputs only. -/
def mutationKey : AdminMutation → String
  | .approveSeller id => IdemKey id "approve-seller"
  | .rejectSeller id => IdemKey id "reject-seller"
  | .markPayoutPaid id => IdemKey id "payout-paid"
  | .rejectPayout id => IdemKey id "payout-reject"
  | .orderDecide orderId action => idempotencyKey orderId action.lit
  | .orderRefund orderId => idempotencyKey orderId "refund"
  | .productCreate sku name =>
    stableKeyPfx "product-create"
      [.str (jsOrStr (jsTrim sku) (jsOrStr (jsTrim name) "no-key"))]
  | .categoryCreate newName =>
    stableKeyPfx "cat-create" [.str (lowerStr (jsTrim newName))]
  | .couponCreate code appliesTo dtype value startsAtISO endsAtISO =>
    stableIdemForCreateCoupon code appliesTo dtype value startsAtISO endsAtISO
  | .promoCreate productId appliesTo ptype value active startsAt priority endsAt =>
    stableIdem ("admin-prod-promo-create:" ++ productId)
      (promoParts appliesTo ptype value active startsAt priority endsAt)

/-! ## General JS values

`apiErrorMessage` takes `err: unknown` and the refresh response's `data` is
also unconstrained, so both need a model of arbitrary JS values.  Numbers
appearing in this code are used only for equality with 401 / stringification,
and are modelled as `Int`. -/

inductive JSVal where
  | vnull
  | vundefined
  | vbool (b : Bool)
  | vnum (n : Int)
  | vstr (s : String)
  | varr (elems : List JSVal)
  | vobj (fields : List (String × JSVal))

/-- Property access `v.k` as used in the embedded code: objects yield the
field or `undefined`; `null`/`undefined` receivers only ever occur under
optional chaining, which yields `undefined`; primitives have none of the
accessed properties, hence `undefined`. -/
def getField (v : JSVal) (k : String) : JSVal :=
  match v with
  | .vobj fields =>
    ((fields.find? (fun kv => kv.fst == k)).map Prod.snd).getD .vundefined
  | _ => .vundefined

/-- JS truthiness. -/
def JSVal.truthy : JSVal → Bool
  | .vnull => false
  | .vundefined => false
  | .vbool b => b
  | .vnum n => !(n == 0)
  | .vstr s => !(s == "")
  | .varr _ => true
  | .vobj _ => true

/-- Embeds `a ?? b`. -/
def jsCoalesce (a b : JSVal) : JSVal :=
  match a with
  | .vnull => b
  | .vundefined => b
  | _ => a

/-- The `String(v)` conversion: arrays join their elements' conversions
with `","` (with `null`/`undefined` elements as empty), plain objects
print as `"[object Object]"`. -/
def jsStringOf : JSVal → String
  | .vnull => "null"
  | .vundefined => "undefined"
  | .vbool b => if b then "true" else "false"
  | .vnum n => toString n
  | .vstr s => s
  | .varr elems =>
    String.intercalate ","
      (elems.attach.map fun ⟨v, _⟩ =>
        match v with
        | .vnull => ""
        | .vundefined => ""
        | u => jsStringOf u)
  | .vobj _ => "[object Object]"

/-! ## `apiErrorMessage` (src/lib/apiError.ts) -/

/-- Embeds `apiErrorMessage(err, fallback)`, embedded line by line from
src/lib/apiError.ts lines 13-28.  `parsed` is `err ?? {}`; `data` is
`parsed.response?.data`; then the source's early-return chain.  The
function is total by construction: in the source every access is optional-
chained or guarded, so no input can make it throw. -/
def apiErrorMessage (err : JSVal) (fallback : String) : String :=
  let parsed := jsCoalesce err (.vobj [])
  let data := getField (getField parsed "response") "data"
  match data with
  | .vstr s => s
  | _ =>
    if (getField data "error").truthy then jsStringOf (getField data "error")
    else if (getField data "message").truthy then jsStringOf (getField data "message")
    else
      match getField data "issues" with
      | .varr issues =>
        let first := (issues.head?).getD .vundefined
        if (getField first "message").truthy then jsStringOf (getField first "message")
        else if (getField first "msg").truthy then jsStringOf (getField first "msg")
        else if (getField parsed "message").truthy then jsStringOf (getField parsed "message")
        else fallback
      | _ =>
        if (getField parsed "message").truthy then jsStringOf (getField parsed "message")
        else fallback

/-- Embeds `apiErrorMessage` with its default fallback `"Ocorreu um erro"`. -/
def apiErrorMessageD (err : JSVal) : String :=
  apiErrorMessage err "Ocorreu um erro"

/-- The value `v` contributes when truthy, as the claim's precedence list
reads: `String(v)` if `v` is truthy, nothing otherwise. -/
def truthyStr (v : JSVal) : Option String :=
  if v.truthy then some (jsStringOf v) else none

/-- Embeds `apiErrorMessage` as the claim words it: if `response.data` is a string
return it; otherwise the first applicable of `data.error`, `data.message`,
the first issue's `message`, its `msg`, the top-level `err.message`, each
converted with `String`; finally the fallback. -/
def apiErrorMessageSpec (err : JSVal) (fallback : String) : String :=
  let parsed := jsCoalesce err (.vobj [])
  let data := getField (getField parsed "response") "data"
  match data with
  | .vstr s => s
  | _ =>
    ((truthyStr (getField data "error")).orElse fun _ =>
      (truthyStr (getField data "message")).orElse fun _ =>
        ((match getField data "issues" with
          | .varr issues =>
            (truthyStr (getField ((issues.head?).getD .vundefined) "message")).orElse fun _ =>
              truthyStr (getField ((issues.head?).getD .vundefined) "msg")
          | _ => none).orElse fun _ =>
            truthyStr (getField parsed "message"))).getD fallback

/-! ## Facts about `squashWs` -/

theorem squashWsAux_no_ws :
    ∀ (l : List Char) (inRun : Bool), ∀ c ∈ squashWsAux inRun l,
      jsWhitespace c = false := by
  intro l
  induction l with
  | nil =>
    intro inRun c hc
    simp [squashWsAux] at hc
  | cons c rest ih =>
    intro inRun d hd
    by_cases hws : jsWhitespace c
    · rw [squashWsAux, if_pos hws] at hd
      cases inRun with
      | true => exact ih true d hd
      | false =>
        rcases List.mem_cons.mp hd with h | h
        · subst h; decide
        · exact ih true d h
    · rw [squashWsAux, if_neg hws] at hd
      rcases List.mem_cons.mp hd with h | h
      · subst h; simpa using hws
      · exact ih false d h

theorem squashWs_no_ws :
    ∀ (l : List Char), ∀ c ∈ squashWs l, jsWhitespace c = false :=
  fun l => squashWsAux_no_ws l false

/-! ## Claim theorems: key helper shape and determinism -/

/-- C10: for every argument list, the string returned by `stableKey`
contains no whitespace character (every maximal whitespace run having been
replaced by a single underscore) and its length is at most 160. -/
theorem stableKey_ws_free_and_bounded (parts : List JsArg) :
    (∀ c ∈ (stableKey parts).toList, jsWhitespace c = false) ∧
    (stableKey parts).length ≤ 160 := by
  have h : stableKey parts =
      String.mk ((squashWs (jsTrim (String.intercalate ":"
        ((flatArgs parts).map JsPrim.coalesceString))).toList).take 160) := rfl
  constructor
  · intro c hc
    rw [h] at hc
    exact squashWs_no_ws _ c (List.take_subset _ _ hc)
  · rw [h]
    simp [List.length_take_le]

/-- C5: the idempotency-key derivations are deterministic: two runs of
`stableKey` (and of `idempotencyKey` / `IdemKey`) on the same argument
list, in arbitrarily different ambient worlds (clock, random stream,
storage), produce the identical key string. -/
theorem idem_key_helpers_deterministic (w₁ w₂ : World) (parts : List JsArg)
    (id action orderId : String) :
    stableKeyRun w₁ parts = stableKeyRun w₂ parts ∧
    IdemKeyRun w₁ id action = IdemKeyRun w₂ id action ∧
    idempotencyKeyRun w₁ orderId action = idempotencyKeyRun w₂ orderId action :=
  ⟨rfl, rfl, rfl⟩

/-- C4: every side-effecting mutation issued by the admin pages (approve
seller, reject seller, mark payout paid, reject payout, order decision,
refund, entity creation) attaches an `Idempotency-Key` header; its value is
independent of the ambient world (clock, randomness, storage) and equals
the owning page's derivation helper applied to the operation's stable
inputs only. -/
theorem admin_mutations_attach_idempotency_key (w w' : World)
    (m : AdminMutation) (r : HttpRequest)
    (hr : mutationRequest w m = some r) :
    mutationRequest w m = mutationRequest w' m ∧
    headerValue r "Idempotency-Key" = some (mutationKey m) := by
  refine ⟨rfl, ?_⟩
  cases m with
  | categoryCreate newName =>
    simp only [mutationRequest] at hr
    split at hr
    · exact Option.noConfusion hr
    · injection hr with h
      subst h
      simp [headerValue, mutationKey]
  | approveSeller id =>
    injection hr with h
    subst h
    simp [headerValue, mutationKey]
  | rejectSeller id =>
    injection hr with h
    subst h
    simp [headerValue, mutationKey]
  | markPayoutPaid id =>
    injection hr with h
    subst h
    simp [headerValue, mutationKey]
  | rejectPayout id =>
    injection hr with h
    subst h
    simp [headerValue, mutationKey]
  | orderDecide orderId action =>
    injection hr with h
    subst h
    simp [headerValue, mutationKey]
  | orderRefund orderId =>
    injection hr with h
    subst h
    simp [headerValue, mutationKey]
  | productCreate sku name =>
    injection hr with h
    subst h
    simp [headerValue, mutationKey]
  | couponCreate code appliesTo dtype value startsAtISO endsAtISO =>
    injection hr with h
    subst h
    simp [headerValue, mutationKey]
  | promoCreate productId appliesTo ptype value active startsAt priority endsAt =>
    injection hr with h
    subst h
    simp [headerValue, mutationKey]

theorem admin_mutations_attach_idempotency_key_witness :
    mutationRequest ⟨0, fun _ => 0, []⟩ (.approveSeller "s1") =
      mutationRequest ⟨7, fun n => n + 1, [("k", "v")]⟩ (.approveSeller "s1") ∧
    headerValue
      ⟨"POST", endpointApproveSeller "s1",
        [("Idempotency-Key", IdemKey "s1" "approve-seller")]⟩
      "Idempotency-Key" = some (mutationKey (.approveSeller "s1")) :=
  admin_mutations_attach_idempotency_key
    ⟨0, fun _ => 0, []⟩ ⟨7, fun n => n + 1, [("k", "v")]⟩
    (.approveSeller "s1") _ rfl

/-- C8: `apiErrorMessage` is total (it is a function into `String`, every
access in the source being optional-chained or guarded) and follows the
claimed precedence: a string `response.data` is returned as is, then
`data.error`, `data.message`, the first issue's `message`, its `msg`, the
top-level `err.message` — each converted with `String` — and finally the
fallback, which is what `null` and `undefined` inputs receive. -/
theorem apiErrorMessage_total_precedence (err : JSVal) (fallback : String) :
    apiErrorMessage err fallback = apiErrorMessageSpec err fallback ∧
    apiErrorMessage .vnull fallback = fallback ∧
    apiErrorMessage .vundefined fallback = fallback ∧
    apiErrorMessageD .vnull = "Ocorreu um erro" := by
  refine ⟨?_, rfl, rfl, rfl⟩
  have core : ∀ (p d : JSVal),
      (match d with
        | .vstr s => s
        | _ =>
          if (getField d "error").truthy then jsStringOf (getField d "error")
          else if (getField d "message").truthy then jsStringOf (getField d "message")
          else
            match getField d "issues" with
            | .varr issues =>
              let first := (issues.head?).getD .vundefined
              if (getField first "message").truthy then jsStringOf (getField first "message")
              else if (getField first "msg").truthy then jsStringOf (getField first "msg")
              else if (getField p "message").truthy then jsStringOf (getField p "message")
              else fallback
            | _ =>
              if (getField p "message").truthy then jsStringOf (getField p "message")
              else fallback) =
      (match d with
        | .vstr s => s
        | _ =>
          ((truthyStr (getField d "error")).orElse fun _ =>
            (truthyStr (getField d "message")).orElse fun _ =>
              ((match getField d "issues" with
                | .varr issues =>
                  (truthyStr (getField ((issues.head?).getD .vundefined) "message")).orElse fun _ =>
                    truthyStr (getField ((issues.head?).getD .vundefined) "msg")
                | _ => none).orElse fun _ =>
                  truthyStr (getField p "message"))).getD fallback) := by
    intro p d
    cases d with
    | vstr s => rfl
    | vnull =>
      simp only [truthyStr]
      split_ifs <;> simp_all [Option.orElse, getField]
    | vundefined =>
      simp only [truthyStr]
      split_ifs <;> simp_all [Option.orElse, getField]
    | vbool b =>
      simp only [truthyStr]
      split_ifs <;> simp_all [Option.orElse, getField]
    | vnum n =>
      simp only [truthyStr]
      split_ifs <;> simp_all [Option.orElse, getField]
    | varr elems =>
      simp only [truthyStr]
      split_ifs <;> simp_all [Option.orElse, getField]
    | vobj fields =>
      by_cases he : (getField (.vobj fields) "error").truthy
      · simp [truthyStr, he, Option.orElse]
      · by_cases hm : (getField (.vobj fields) "message").truthy
        · simp [truthyStr, he, hm, Option.orElse]
        · by_cases hp : (getField p "message").truthy
          all_goals
            rcases hiss : getField (.vobj fields) "issues" with _ | _ | b | n | s | elems | f
          case pos.varr | neg.varr =>
            by_cases h1 : (getField ((elems.head?).getD .vundefined) "message").truthy
            · simp [truthyStr, he, hm, hiss, h1, Option.orElse]
            · by_cases h2 : (getField ((elems.head?).getD .vundefined) "msg").truthy
              · simp [truthyStr, he, hm, hiss, h1, h2, Option.orElse]
              · simp [truthyStr, he, hm, hiss, h1, h2, hp, Option.orElse]
          all_goals simp [truthyStr, he, hm, hiss, hp, Option.orElse]
  exact core (jsCoalesce err (.vobj [])) (getField (getField (jsCoalesce err (.vobj [])) "response") "data")

/-! ## `pickPrimaryImage` (src/lib/productImages.ts) -/

/-- The `ProductImage` record type of src/lib/productImages.ts.  Fields
typed `T | null` with an optional marker collapse to `Option`: for
`isPrimary` only the value `some true` is truthy. -/
structure ProductImage where
  id : String
  url : String
  key : Option String
  isPrimary : Option Bool
  sort : Option Int
  mime : Option String
  size : Option Int
  deriving DecidableEq, Repr

/-- Embeds `a.isPrimary ? 1 : 0`. -/
def imgPrimaryRank (a : ProductImage) : Int :=
  if a.isPrimary.getD false then 1 else 0

/-- The comparator passed to `.sort` in `pickPrimaryImage`: primary images
first, then ascending `sort` with a missing `sort` read as 0. -/
def imgCmp (a b : ProductImage) : Int :=
  let ap := imgPrimaryRank a
  let bp := imgPrimaryRank b
  if bp ≠ ap then bp - ap else (a.sort.getD 0) - (b.sort.getD 0)

/-- Embeds `a` may be placed no later than `b` by the JS sort: `imgCmp a b ≤ 0`. -/
def imgLe (a b : ProductImage) : Bool := decide (imgCmp a b ≤ 0)

/-- Embeds `pickPrimaryImage(images)`: `null` for a missing or empty list,
otherwise the `url` of the first element of the stably sorted copy. -/
def pickPrimaryImage (images : Option (List ProductImage)) : Option String :=
  match images with
  | none => none
  | some l =>
    if l.isEmpty then none
    else ((sortLe imgLe l).head?).map (fun i => i.url)

/-- Embeds `pickPrimaryImage` with the caller's array threaded through: the sort
operates on the spread copy `[...images]`, so the caller's array is
returned unchanged. -/
def pickPrimaryImageArr (images : List ProductImage) :
    Option String × List ProductImage :=
  let copy := images
  (((sortLe imgLe copy).head?).map (fun i => i.url), images)

/-! ## Facts about `sortLe` -/

theorem mem_insertLe (le : A → A → Bool) (a x : A) :
    ∀ l : List A, x ∈ insertLe le a l ↔ x = a ∨ x ∈ l := by
  intro l
  induction l with
  | nil => simp [insertLe]
  | cons b bs ih =>
    by_cases h : le a b
    · simp [insertLe, h]
    · simp only [insertLe, h, if_neg, Bool.false_eq_true, not_false_eq_true,
        List.mem_cons, ih]
      tauto

theorem mem_sortLe (le : A → A → Bool) (x : A) :
    ∀ l : List A, x ∈ sortLe le l ↔ x ∈ l := by
  intro l
  induction l with
  | nil => simp [sortLe]
  | cons a as ih =>
    simp [sortLe, mem_insertLe, ih]

theorem length_insertLe (le : A → A → Bool) (a : A) :
    ∀ l : List A, (insertLe le a l).length = l.length + 1 := by
  intro l
  induction l with
  | nil => rfl
  | cons b bs ih =>
    by_cases h : le a b
    · simp [insertLe, h]
    · simp [insertLe, h, ih]

theorem length_sortLe (le : A → A → Bool) :
    ∀ l : List A, (sortLe le l).length = l.length := by
  intro l
  induction l with
  | nil => rfl
  | cons a as ih => simp [sortLe, length_insertLe, ih]

theorem pairwise_insertLe (le : A → A → Bool)
    (htot : ∀ a b, le a b = true ∨ le b a = true)
    (htr : ∀ a b c, le a b = true → le b c = true → le a c = true)
    (a : A) :
    ∀ l : List A, l.Pairwise (fun x y => le x y = true) →
      (insertLe le a l).Pairwise (fun x y => le x y = true) := by
  intro l
  induction l with
  | nil => intro _; simp [insertLe]
  | cons b bs ih =>
    intro hp
    rcases List.pairwise_cons.mp hp with ⟨hb, hbs⟩
    by_cases h : le a b
    · rw [insertLe, if_pos h]
      refine List.pairwise_cons.mpr ⟨?_, hp⟩
      intro x hx
      rcases List.mem_cons.mp hx with rfl | hx
      · exact h
      · exact htr a b x h (hb x hx)
    · rw [insertLe, if_neg h]
      refine List.pairwise_cons.mpr ⟨?_, ih hbs⟩
      intro x hx
      rcases (mem_insertLe le a x bs).mp hx with heq | hx
      · rw [heq]
        rcases htot a b with hab | hba
        · exact absurd hab (by simpa using h)
        · exact hba
      · exact hb x hx

theorem pairwise_sortLe (le : A → A → Bool)
    (htot : ∀ a b, le a b = true ∨ le b a = true)
    (htr : ∀ a b c, le a b = true → le b c = true → le a c = true) :
    ∀ l : List A, (sortLe le l).Pairwise (fun x y => le x y = true) := by
  intro l
  induction l with
  | nil => simp [sortLe]
  | cons a as ih => exact pairwise_insertLe le htot htr a _ ih

/-! ## Facts about `imgLe` -/

theorem imgLe_iff (a b : ProductImage) :
    imgLe a b = true ↔
      (imgPrimaryRank b < imgPrimaryRank a ∨
        (imgPrimaryRank a = imgPrimaryRank b ∧ a.sort.getD 0 ≤ b.sort.getD 0)) := by
  have hc : imgCmp a b =
      if imgPrimaryRank b ≠ imgPrimaryRank a then imgPrimaryRank b - imgPrimaryRank a
      else a.sort.getD 0 - b.sort.getD 0 := rfl
  have hl : imgLe a b = decide (imgCmp a b ≤ 0) := rfl
  rw [hl, hc]
  by_cases h : imgPrimaryRank b = imgPrimaryRank a
  · rw [if_neg (by simp [h]), decide_eq_true_eq]
    omega
  · rw [if_pos h, decide_eq_true_eq]
    omega

theorem imgLe_total (a b : ProductImage) :
    imgLe a b = true ∨ imgLe b a = true := by
  rw [imgLe_iff, imgLe_iff]
  omega

theorem imgLe_trans (a b c : ProductImage) :
    imgLe a b = true → imgLe b c = true → imgLe a c = true := by
  rw [imgLe_iff, imgLe_iff, imgLe_iff]
  omega

theorem imgPrimaryRank_eq_one (y : ProductImage) :
    imgPrimaryRank y = 1 ↔ y.isPrimary.getD false = true := by
  unfold imgPrimaryRank
  by_cases h : y.isPrimary.getD false <;> simp [h]

theorem imgPrimaryRank_eq_zero (y : ProductImage) :
    imgPrimaryRank y = 0 ↔ y.isPrimary.getD false = false := by
  unfold imgPrimaryRank
  by_cases h : y.isPrimary.getD false <;> simp [h]

/-- The sorted copy of a nonempty list starts with an element of the list
that the comparator places no later than every element. -/
theorem sortLe_head_min (l : List ProductImage) (hl : l ≠ []) :
    ∃ y t, sortLe imgLe l = y :: t ∧ y ∈ l ∧ ∀ x ∈ l, imgLe y x = true := by
  cases hs : sortLe imgLe l with
  | nil =>
    exfalso
    have := length_sortLe imgLe l
    rw [hs] at this
    exact hl (List.length_eq_zero.mp this.symm)
  | cons y t =>
    have hy : y ∈ l := by
      have : y ∈ sortLe imgLe l := by rw [hs]; exact List.mem_cons_self y t
      exact (mem_sortLe imgLe y l).mp this
    refine ⟨y, t, rfl, hy, ?_⟩
    intro x hx
    have hx' : x ∈ sortLe imgLe l := (mem_sortLe imgLe x l).mpr hx
    rw [hs] at hx'
    rcases List.mem_cons.mp hx' with heq | hxt
    · rw [heq]
      rcases imgLe_total y y with h | h <;> exact h
    · have hp := pairwise_sortLe imgLe imgLe_total imgLe_trans l
      rw [hs] at hp
      exact (List.pairwise_cons.mp hp).1 x hxt

/-- C9: `pickPrimaryImage` returns `null` exactly for a missing or empty
list; on a nonempty list it returns the url of a primary element whenever
one exists and otherwise the url of an element of minimal `sort` value
(missing `sort` read as 0); and the caller's array comes back unchanged,
the sort operating on the spread copy. -/
theorem pickPrimaryImage_spec :
    (∀ images, pickPrimaryImage images = none ↔ images = none ∨ images = some []) ∧
    (∀ (l : List ProductImage) (x : ProductImage), x ∈ l →
      x.isPrimary.getD false = true →
      ∃ y, y ∈ l ∧ y.isPrimary.getD false = true ∧
        pickPrimaryImage (some l) = some y.url) ∧
    (∀ l : List ProductImage, l ≠ [] →
      (∀ x ∈ l, x.isPrimary.getD false = false) →
      ∃ y, y ∈ l ∧ (∀ x ∈ l, y.sort.getD 0 ≤ x.sort.getD 0) ∧
        pickPrimaryImage (some l) = some y.url) ∧
    (∀ l : List ProductImage, (pickPrimaryImageArr l).snd = l) := by
  refine ⟨?_, ?_, ?_, fun l => rfl⟩
  · intro images
    cases images with
    | none => simp [pickPrimaryImage]
    | some l =>
      cases l with
      | nil => simp [pickPrimaryImage]
      | cons a as =>
        rcases sortLe_head_min (a :: as) (by simp) with ⟨y, t, hs, _, _⟩
        simp [pickPrimaryImage, hs]
  · intro l x hx hprim
    have hl : l ≠ [] := List.ne_nil_of_mem hx
    have hne : l.isEmpty = false := by
      cases l with
      | nil => exact absurd rfl hl
      | cons a as => rfl
    rcases sortLe_head_min l hl with ⟨y, t, hs, hy, hmin⟩
    refine ⟨y, hy, ?_, ?_⟩
    · have hle := hmin x hx
      rw [imgLe_iff] at hle
      have hx1 : imgPrimaryRank x = 1 := (imgPrimaryRank_eq_one x).mpr hprim
      have h01 : imgPrimaryRank y = 0 ∨ imgPrimaryRank y = 1 := by
        unfold imgPrimaryRank
        by_cases h : y.isPrimary.getD false <;> simp [h]
      have : imgPrimaryRank y = 1 := by omega
      exact (imgPrimaryRank_eq_one y).mp this
    · simp [pickPrimaryImage, hne, hs]
  · intro l hl hall
    have hne : l.isEmpty = false := by
      cases l with
      | nil => exact absurd rfl hl
      | cons a as => rfl
    rcases sortLe_head_min l hl with ⟨y, t, hs, hy, hmin⟩
    refine ⟨y, hy, ?_, ?_⟩
    · intro x hx
      have hle := hmin x hx
      rw [imgLe_iff] at hle
      have hy0 : imgPrimaryRank y = 0 := (imgPrimaryRank_eq_zero y).mpr (hall y hy)
      have hx0 : imgPrimaryRank x = 0 := (imgPrimaryRank_eq_zero x).mpr (hall x hx)
      omega
    · simp [pickPrimaryImage, hne, hs]

/-! ## The axios layer of `src/lib/api.ts`

The file installs a response interceptor on the `api` instance and keeps a
module-level `refreshing: Promise<string> | null`.  The synchronous prefix
of the error handler (up to the first `await`) is the pure decision
`interceptDecision`; the asynchronous remainder is modelled by the action
traces below, and the single-flight discipline of `refreshing` by the
event system further down. -/

/-- Embeds `endpoints.auth.refresh`. -/
def refreshEndpoint : String := "/auth/refresh"

/-- Embeds `a` starts with `b`. -/
def startsWithChars : List Char → List Char → Bool
  | _, [] => true
  | [], _ :: _ => false
  | a :: as, b :: bs => a == b && startsWithChars as bs

/-- Embeds `b` occurs contiguously in `a`. -/
def containsChars : List Char → List Char → Bool
  | [], needle => needle.isEmpty
  | h :: t, needle => startsWithChars (h :: t) needle || containsChars t needle

/-- Embeds `String.prototype.includes`. -/
def strIncludes (hay needle : String) : Bool :=
  containsChars hay.toList needle.toList

/-- Embeds `RetryableRequestConfig`: the original request's config with the
`_retry` marker (absent reads as `false`). -/
structure RetryableConfig where
  url : Option String
  retryFlag : Bool
  headers : Option (List (String × String))
  deriving DecidableEq, Repr

/-- The error object the response interceptor receives: `err.response?.
status` and `err.config`. -/
structure AxiosErr where
  status : Option Nat
  config : Option RetryableConfig
  deriving DecidableEq, Repr

/-- What the synchronous prefix of the error handler decides: reject the
incoming error unchanged, or mark `_retry` and enter the refresh path. -/
inductive InterceptDecision where
  | passthrough (e : AxiosErr)
  | refreshThenRetry (cfg : RetryableConfig)
  deriving DecidableEq, Repr

/-- Lines 142-152 of src/lib/api.ts: reject unless the status is 401 and a
config is present; reject requests to the refresh endpoint; reject
already-retried requests; otherwise set `_retry = true` and proceed. -/
def interceptDecision (e : AxiosErr) : InterceptDecision :=
  if e.status != some 401 || e.config.isNone then .passthrough e
  else
    match e.config with
    | none => .passthrough e
    | some original =>
      if strIncludes (original.url.getD "") refreshEndpoint then .passthrough e
      else if original.retryFlag then .passthrough e
      else .refreshThenRetry { original with retryFlag := true }

/-- Embeds `typeof v === "object"`. -/
def isObjectType : JSVal → Bool
  | .vobj _ => true
  | .varr _ => true
  | .vnull => true
  | _ => false

/-- Embeds `extractAccessToken(data)` from src/lib/api.ts lines 102-111:
`accessToken ?? token ?? data.accessToken ?? data.token ?? null` behind the
object guard. -/
def extractAccessToken (data : JSVal) : JSVal :=
  if !data.truthy then .vnull
  else if !(isObjectType data) then .vnull
  else
    jsCoalesce (getField data "accessToken")
      (jsCoalesce (getField data "token")
        (jsCoalesce (getField (getField data "data") "accessToken")
          (jsCoalesce (getField (getField data "data") "token") .vnull)))

/-- How the shared refresh promise settles. -/
inductive RefreshOutcome where
  | ok (token : String)
  | fail (msg : String)
  deriving DecidableEq, Repr

/-- The observable steps the refresh path takes, in order. -/
inductive BrowserAction where
  | postRefresh
  | storeToken (t : String)
  | issueRetry (cfg : RetryableConfig)
  | clearSession
  | navigate (url : String)
  | rejectError (msg : String)
  deriving DecidableEq, Repr

/-- The body of the promise created by `refreshAccessToken` (lines
115-125): POST the refresh endpoint, extract the token, throw when it is
falsy, otherwise store it and resolve with it.  The POST's outcome is the
`Except` argument: `error` for a network failure or non-2xx response
(axios rejects), `ok data` for a 2xx response body. -/
def refreshBodyRun (post : Except String JSVal) :
    List BrowserAction × RefreshOutcome :=
  match post with
  | .error e => ([.postRefresh], .fail e)
  | .ok data =>
    let token := extractAccessToken data
    if token.truthy then
      ([.postRefresh, .storeToken (jsStringOf token)], .ok (jsStringOf token))
    else ([.postRefresh], .fail "Refresh OK mas não retornou accessToken")

/-- Embeds `original.headers.Authorization = value`: update the key in place or
append it. -/
def setHeaderVal : List (String × String) → String → String → List (String × String)
  | [], k, v => [(k, v)]
  | kv :: rest, k, v =>
    if kv.fst == k then (k, v) :: rest else kv :: setHeaderVal rest k v

/-- Lines 156-157: `original.headers = original.headers ?? {};
original.headers.Authorization = "Bearer " + newToken`. -/
def withAuthHeader (cfg : RetryableConfig) (tok : String) : RetryableConfig :=
  { cfg with
    headers := some (setHeaderVal (cfg.headers.getD []) "Authorization" ("Bearer " ++ tok)) }

/-- Embeds `window.location.pathname` / `.search`. -/
structure WindowLoc where
  pathname : String
  search : String
  deriving DecidableEq, Repr

/-- Embeds `%XX` with uppercase hex digits. -/
def hexDigitChar (n : Nat) : Char :=
  if n < 10 then Char.ofNat (48 + n) else Char.ofNat (55 + n)

/-- See `hexDigitChar`. -/
def percentByte (b : Nat) : List Char :=
  ['%', hexDigitChar (b / 16), hexDigitChar (b % 16)]

/-- The UTF-8 bytes of a code point. -/
def utf8Bytes (c : Char) : List Nat :=
  let n := c.toNat
  if n < 0x80 then [n]
  else if n < 0x800 then [0xC0 + n / 64, 0x80 + n % 64]
  else if n < 0x10000 then [0xE0 + n / 4096, 0x80 + n / 64 % 64, 0x80 + n % 64]
  else [0xF0 + n / 262144, 0x80 + n / 4096 % 64, 0x80 + n / 64 % 64, 0x80 + n % 64]

/-- The characters `encodeURIComponent` leaves unescaped. -/
def uriUnreserved (c : Char) : Bool :=
  c.isAlpha || c.isDigit || c == '-' || c == '_' || c == '.' || c == '!' ||
  c == '~' || c == '*' || c == Char.ofNat 39 || c == '(' || c == ')'

/-- Embeds `encodeURIComponent`. -/
def encodeURIComponent (s : String) : String :=
  String.mk (s.toList.flatMap fun c =>
    if uriUnreserved c then [c] else (utf8Bytes c).flatMap percentByte)

/-- The login url the catch block navigates to (line 163):
`/login?next=${encodeURIComponent(next || "/admin")}` with
`next = pathname + search`. -/
def loginRedirectUrl (loc : WindowLoc) : String :=
  "/login?next=" ++ encodeURIComponent (jsOrStr (loc.pathname ++ loc.search) "/admin")

/-- The whole refresh-then-retry branch (lines 154-166) as an action
trace: the refresh promise's own actions, then on success the retry of the
original request carrying the fresh `Authorization` header, and on failure
`authStore.clearAll()`, the redirect (only when a window exists) and the
rejection with the refresh error. -/
def refreshRetryRun (cfg : RetryableConfig) (post : Except String JSVal)
    (win : Option WindowLoc) : List BrowserAction :=
  let r := refreshBodyRun post
  r.fst ++
    match r.snd with
    | .ok tok => [.issueRetry (withAuthHeader cfg tok)]
    | .fail e =>
      [.clearSession] ++
      (match win with
        | some loc => [.navigate (loginRedirectUrl loc)]
        | none => []) ++
      [.rejectError e]

/-- The browser-local session: the two localStorage keys the `authStore`
manages, the window (absent during SSR), and where the page navigated. -/
structure SessionState where
  accessToken : Option String
  me : Option String
  window : Option WindowLoc
  navigatedTo : Option String
  deriving DecidableEq, Repr

/-- Effect of one action on the session.  `authStore.setAccessToken` and
`authStore.clearAll` no-op without a window (their `typeof window`
guards); `clearAll` removes both stored keys. -/
def applyAction (s : SessionState) : BrowserAction → SessionState
  | .storeToken t =>
    match s.window with
    | none => s
    | some _ => { s with accessToken := some t }
  | .clearSession =>
    match s.window with
    | none => s
    | some _ => { s with accessToken := none, me := none }
  | .navigate url => { s with navigatedTo := some url }
  | _ => s

/-- Run a trace of actions over the session. -/
def runActions (s : SessionState) (acts : List BrowserAction) : SessionState :=
  acts.foldl applyAction s

/-! ## The single-flight `refreshing` variable

JS is single-threaded: the synchronous body of `refreshAccessToken` —
test `refreshing`, create the promise, store it — runs without
interleaving, so each call is one atomic event.  The promise settling
(which runs the `finally` that nulls `refreshing` and wakes every caller
awaiting that promise) is the other event.  `pending` records refresh
POSTs that have started and not settled; nothing in the model caps its
size — that at most one is ever in flight is a theorem. -/

structure RefreshState where
  refreshing : Option Nat
  pending : List Nat
  nextId : Nat
  waiters : List (Nat × Nat)
  delivered : List (Nat × Nat × RefreshOutcome)
  deriving DecidableEq, Repr

/-- The two kinds of events: a caller invoking `refreshAccessToken`, and a
pending refresh promise settling with an outcome. -/
inductive RefreshEvent where
  | call (caller : Nat)
  | settle (id : Nat) (outcome : RefreshOutcome)
  deriving DecidableEq, Repr

/-- One step.  A call finding `refreshing` non-null just awaits it; a call
finding it null creates the promise (starting the POST) and awaits it.  A
settle of a pending promise delivers the outcome to exactly the callers
awaiting that promise and runs the `finally`, nulling `refreshing`. -/
def refreshStep (s : RefreshState) : RefreshEvent → RefreshState
  | .call c =>
    match s.refreshing with
    | some p => { s with waiters := s.waiters ++ [(c, p)] }
    | none =>
      { s with
        refreshing := some s.nextId,
        pending := s.pending ++ [s.nextId],
        waiters := s.waiters ++ [(c, s.nextId)],
        nextId := s.nextId + 1 }
  | .settle id outcome =>
    if s.pending.contains id then
      { s with
        pending := s.pending.erase id,
        refreshing := if s.refreshing == some id then none else s.refreshing,
        waiters := s.waiters.filter (fun w => !(w.snd == id)),
        delivered := s.delivered ++
          (s.waiters.filter (fun w => w.snd == id)).map
            (fun w => (w.fst, w.snd, outcome)) }
    else s

/-- The module's initial state: `refreshing = null`, nothing pending. -/
def initialRefreshState : RefreshState :=
  { refreshing := none, pending := [], nextId := 0, waiters := [], delivered := [] }

/-- Run a sequence of events from a state. -/
def runEvents (s : RefreshState) (es : List RefreshEvent) : RefreshState :=
  es.foldl refreshStep s

/-- The state invariant: the pending POSTs are exactly the promise held in
`refreshing`, and every waiter awaits that promise. -/
def RefreshInv (s : RefreshState) : Prop :=
  match s.refreshing with
  | some p => s.pending = [p] ∧ s.waiters.all (fun w => w.snd == p) = true
  | none => s.pending = [] ∧ s.waiters = []

/-! ## The single-flight invariant -/

theorem refreshInv_initial : RefreshInv initialRefreshState := by
  constructor <;> rfl

theorem refreshInv_step (s : RefreshState) (e : RefreshEvent)
    (h : RefreshInv s) : RefreshInv (refreshStep s e) := by
  cases e with
  | call c =>
    cases hr : s.refreshing with
    | some p =>
      unfold RefreshInv at h
      rw [hr] at h
      simp only [refreshStep, hr, RefreshInv]
      exact ⟨h.1, by simp [h.2]⟩
    | none =>
      unfold RefreshInv at h
      rw [hr] at h
      simp only [refreshStep, hr, RefreshInv]
      simp [h.1, h.2]
  | settle id outcome =>
    cases hr : s.refreshing with
    | some p =>
      unfold RefreshInv at h
      rw [hr] at h
      by_cases hc : s.pending.contains id
      · have hidp : id = p := by
          rw [h.1] at hc
          simpa using hc
        subst hidp
        have hfil : s.waiters.filter (fun w => !(w.snd == id)) = [] := by
          rw [List.filter_eq_nil_iff]
          intro w hw
          have := List.all_eq_true.mp h.2 w hw
          simp_all
        simp only [refreshStep, if_pos hc, RefreshInv, hr]
        simp [h.1, hfil]
      · simp only [refreshStep, if_neg hc]
        unfold RefreshInv
        rw [hr]
        exact h
    | none =>
      unfold RefreshInv at h
      rw [hr] at h
      have hc : s.pending.contains id = false := by
        rw [h.1]; rfl
      have hstep : refreshStep s (.settle id outcome) = s := by
        simp [refreshStep, h.1]
      rw [hstep]
      unfold RefreshInv
      rw [hr]
      exact h

theorem refreshInv_run (es : List RefreshEvent) :
    RefreshInv (runEvents initialRefreshState es) := by
  suffices hgen : ∀ (s : RefreshState), RefreshInv s → RefreshInv (runEvents s es) from
    hgen initialRefreshState refreshInv_initial
  induction es with
  | nil => intro s h; exact h
  | cons e rest ih =>
    intro s h
    exact ih (refreshStep s e) (refreshInv_step s e h)

/-- When the promise currently held in `refreshing` settles, every waiter
receives that one outcome and the `finally` nulls the variable. -/
theorem settle_delivers_to_all (s : RefreshState) (p : Nat)
    (out : RefreshOutcome) (hinv : RefreshInv s) (hr : s.refreshing = some p) :
    (refreshStep s (.settle p out)).delivered =
      s.delivered ++ s.waiters.map (fun w => (w.fst, p, out)) ∧
    (refreshStep s (.settle p out)).refreshing = none := by
  unfold RefreshInv at hinv
  rw [hr] at hinv
  have hc : s.pending.contains p = true := by rw [hinv.1]; simp
  simp only [refreshStep, if_pos hc]
  constructor
  · have hfil : s.waiters.filter (fun w => w.snd == p) = s.waiters := by
      rw [List.filter_eq_self]
      intro w hw
      exact List.all_eq_true.mp hinv.2 w hw
    rw [hfil]
    have hmap : s.waiters.map (fun w => (w.fst, w.snd, out)) =
        s.waiters.map (fun w => (w.fst, p, out)) := by
      apply List.map_congr_left
      intro w hw
      have := List.all_eq_true.mp hinv.2 w hw
      simp_all
    rw [hmap]
  · simp [hr]

/-- C1: at most one refresh is in flight process-wide.  Along every event
sequence from the module's initial state at most one refresh POST is
pending; a caller arriving while `refreshing` holds a promise starts no
new POST and awaits that same promise; a caller arriving while it is null
starts exactly one POST and awaits the promise it created; and when the
shared promise settles, every caller awaiting it receives that one
outcome — in particular all concurrent callers of a successful refresh
receive the same fresh token (the retry itself is the subject of
`retry_carries_new_token`). -/
theorem single_flight_refresh :
    (∀ es : List RefreshEvent, (runEvents initialRefreshState es).pending.length ≤ 1) ∧
    (∀ (s : RefreshState) (c p : Nat), s.refreshing = some p →
      (refreshStep s (.call c)).pending = s.pending ∧
      (refreshStep s (.call c)).waiters = s.waiters ++ [(c, p)]) ∧
    (∀ (s : RefreshState) (c : Nat), s.refreshing = none →
      (refreshStep s (.call c)).pending = s.pending ++ [s.nextId] ∧
      (refreshStep s (.call c)).waiters = s.waiters ++ [(c, s.nextId)]) ∧
    (∀ (s : RefreshState) (p : Nat) (out : RefreshOutcome),
      RefreshInv s → s.refreshing = some p →
      (refreshStep s (.settle p out)).delivered =
        s.delivered ++ s.waiters.map (fun w => (w.fst, p, out)) ∧
      (refreshStep s (.settle p out)).refreshing = none) := by
  refine ⟨?_, ?_, ?_, ?_⟩
  · intro es
    have h := refreshInv_run es
    unfold RefreshInv at h
    cases hr : (runEvents initialRefreshState es).refreshing with
    | some p => rw [hr] at h; rw [h.1]; exact Nat.le_refl 1
    | none => rw [hr] at h; rw [h.1]; exact Nat.zero_le 1
  · intro s c p hr
    simp [refreshStep, hr]
  · intro s c hr
    simp [refreshStep, hr]
  · exact fun s p out hinv hr => settle_delivers_to_all s p out hinv hr

theorem single_flight_refresh_witness :
    (refreshStep ⟨some 0, [0], 1, [(0, 0)], []⟩ (.call 1)).pending = [0] ∧
    (refreshStep ⟨some 0, [0], 1, [(0, 0)], []⟩ (.call 1)).waiters =
      [(0, 0)] ++ [(1, 0)] ∧
    (refreshStep ⟨some 0, [0], 1, [(0, 0)], []⟩
        (.settle 0 (.ok "T"))).delivered =
      [] ++ [(0, 0, RefreshOutcome.ok "T")] :=
  ⟨(single_flight_refresh.2.1 ⟨some 0, [0], 1, [(0, 0)], []⟩ 1 0 rfl).1,
   (single_flight_refresh.2.1 ⟨some 0, [0], 1, [(0, 0)], []⟩ 1 0 rfl).2,
   (single_flight_refresh.2.2.2 ⟨some 0, [0], 1, [(0, 0)], []⟩ 0 (.ok "T")
      ⟨rfl, rfl⟩ rfl).1⟩

/-- C6: the interceptor enters the refresh-then-retry path exactly when
the response status is 401, a request config is present, the request was
not itself to the refresh endpoint, and it has not been retried; in every
other case the incoming error is rejected unchanged. -/
theorem interceptor_triggers_refresh_iff (e : AxiosErr) :
    ((∃ cfg, interceptDecision e = .refreshThenRetry cfg) ↔
      (∃ original, e.status = some 401 ∧ e.config = some original ∧
        strIncludes (original.url.getD "") refreshEndpoint = false ∧
        original.retryFlag = false)) ∧
    (interceptDecision e = .passthrough e ∨
      ∃ cfg, interceptDecision e = .refreshThenRetry cfg) := by
  rcases hc : e.config with _ | original
  · constructor
    · constructor
      · rintro ⟨cfg, hcfg⟩
        rw [interceptDecision, hc] at hcfg
        simp at hcfg
      · rintro ⟨original, _, hcontra, _⟩
        exact Option.noConfusion hcontra
    · left
      rw [interceptDecision, hc]
      simp
  · by_cases h4 : e.status = some 401
    · by_cases hurl : strIncludes (original.url.getD "") refreshEndpoint
      · constructor
        · constructor
          · rintro ⟨cfg, hcfg⟩
            rw [interceptDecision, hc] at hcfg
            simp [h4, hurl] at hcfg
          · rintro ⟨orig2, _, hcfg2, hurl2, _⟩
            injection hcfg2 with he
            rw [← he] at hurl2
            rw [hurl] at hurl2
            exact Bool.noConfusion hurl2
        · left
          rw [interceptDecision, hc]
          simp [h4, hurl]
      · by_cases hretry : original.retryFlag
        · constructor
          · constructor
            · rintro ⟨cfg, hcfg⟩
              rw [interceptDecision, hc] at hcfg
              simp [h4, hurl, hretry] at hcfg
            · rintro ⟨orig2, _, hcfg2, _, hretry2⟩
              injection hcfg2 with he
              rw [← he] at hretry2
              rw [hretry] at hretry2
              exact Bool.noConfusion hretry2
          · left
            rw [interceptDecision, hc]
            simp [h4, hurl, hretry]
        · constructor
          · constructor
            · intro _
              exact ⟨original, h4, by simp [hc], by simpa using hurl, by simpa using hretry⟩
            · intro _
              refine ⟨{ original with retryFlag := true }, ?_⟩
              rw [interceptDecision, hc]
              simp [h4, hurl, hretry]
          · right
            refine ⟨{ original with retryFlag := true }, ?_⟩
            rw [interceptDecision, hc]
            simp [h4, hurl, hretry]
    · constructor
      · constructor
        · rintro ⟨cfg, hcfg⟩
          rw [interceptDecision, hc] at hcfg
          simp [h4] at hcfg
        · rintro ⟨orig2, h401, _, _⟩
          exact absurd h401 h4
      · left
        rw [interceptDecision, hc]
        by_cases hs : e.status = some 401
        · exact absurd hs h4
        · simp [hs]

theorem interceptor_triggers_refresh_iff_witness :
    ∃ cfg,
      interceptDecision ⟨some 401, some ⟨some "/orders", false, none⟩⟩ =
        .refreshThenRetry cfg :=
  (interceptor_triggers_refresh_iff
      ⟨some 401, some ⟨some "/orders", false, none⟩⟩).1.mpr
    ⟨⟨some "/orders", false, none⟩, rfl, rfl, by decide, rfl⟩

/-- C2: the `_retry` flag makes every retry final.  A config entering the
refresh path is already marked `_retry = true`; a 401 whose config carries
`_retry` is rejected without a refresh and without re-issuing the request;
hence the retried request, on failing again, is rejected — a request is
never retried twice. -/
theorem request_retried_at_most_once (e : AxiosErr) :
    (∀ cfg, interceptDecision e = .refreshThenRetry cfg → cfg.retryFlag = true) ∧
    (∀ original, e.config = some original → original.retryFlag = true →
      interceptDecision e = .passthrough e) ∧
    (∀ cfg (e' : AxiosErr), interceptDecision e = .refreshThenRetry cfg →
      e'.config = some cfg → interceptDecision e' = .passthrough e') := by
  have hmark : ∀ cfg, interceptDecision e = .refreshThenRetry cfg →
      cfg.retryFlag = true := by
    intro cfg hcfg
    rcases hc : e.config with _ | original
    · rw [interceptDecision, hc] at hcfg
      simp at hcfg
    · rw [interceptDecision, hc] at hcfg
      by_cases h4 : e.status = some 401
      · by_cases hurl : strIncludes (original.url.getD "") refreshEndpoint
        · simp [h4, hurl] at hcfg
        · by_cases hretry : original.retryFlag
          · simp [h4, hurl, hretry] at hcfg
          · simp [h4, hurl, hretry] at hcfg
            rw [← hcfg]
      · simp [h4] at hcfg
  have hstop : ∀ original, e.config = some original → original.retryFlag = true →
      interceptDecision e = .passthrough e := by
    intro original hc hretry
    rw [interceptDecision, hc]
    by_cases h4 : e.status = some 401
    · by_cases hurl : strIncludes (original.url.getD "") refreshEndpoint
      · simp [h4, hurl]
      · simp [h4, hurl, hretry]
    · simp [h4]
  refine ⟨hmark, hstop, ?_⟩
  intro cfg e' hcfg hce'
  have hflag := hmark cfg hcfg
  have : ∀ original, e'.config = some original → original.retryFlag = true →
      interceptDecision e' = .passthrough e' := by
    intro original hc hr
    rw [interceptDecision, hc]
    by_cases h4 : e'.status = some 401
    · by_cases hurl : strIncludes (original.url.getD "") refreshEndpoint
      · simp [h4, hurl]
      · simp [h4, hurl, hr]
    · simp [h4]
  exact this cfg hce' hflag

theorem request_retried_at_most_once_witness :
    RetryableConfig.retryFlag ⟨some "/orders", true, none⟩ = true ∧
    interceptDecision
        ⟨some 401, some ⟨some "/orders", true, none⟩⟩ =
      .passthrough ⟨some 401, some ⟨some "/orders", true, none⟩⟩ :=
  ⟨(request_retried_at_most_once
      ⟨some 401, some ⟨some "/orders", false, none⟩⟩).1
      ⟨some "/orders", true, none⟩ (by decide),
   (request_retried_at_most_once
      ⟨some 401, some ⟨some "/orders", true, none⟩⟩).2.1
      ⟨some "/orders", true, none⟩ rfl rfl⟩

/-- The `Authorization` entry of a config's headers. -/
def configAuthHeader (cfg : RetryableConfig) : Option String :=
  ((cfg.headers.getD []).find? (fun kv => kv.fst == "Authorization")).map Prod.snd

theorem find_setHeaderVal (hs : List (String × String)) (k v : String) :
    ((setHeaderVal hs k v).find? (fun kv => kv.fst == k)).map Prod.snd = some v := by
  induction hs with
  | nil => simp [setHeaderVal]
  | cons kv rest ih =>
    by_cases h : kv.fst == k
    · simp [setHeaderVal, h]
    · simp [setHeaderVal, h, ih]

/-- C7: when the refresh succeeds with token `tok`, the retried original
request carries `Authorization: Bearer tok` with exactly that token, and
the trace stores `tok` (`authStore.setAccessToken`, inside the refresh
promise) strictly before the retry is issued. -/
theorem retry_carries_new_token (cfg : RetryableConfig)
    (post : Except String JSVal) (win : Option WindowLoc) (tok : String)
    (hok : (refreshBodyRun post).snd = .ok tok) :
    configAuthHeader (withAuthHeader cfg tok) = some ("Bearer " ++ tok) ∧
    ∃ i j, i < j ∧
      (refreshRetryRun cfg post win).get? i = some (.storeToken tok) ∧
      (refreshRetryRun cfg post win).get? j =
        some (.issueRetry (withAuthHeader cfg tok)) := by
  constructor
  · simp [configAuthHeader, withAuthHeader, find_setHeaderVal]
  · cases post with
    | error e => simp [refreshBodyRun] at hok
    | ok data =>
      by_cases ht : (extractAccessToken data).truthy
      · have hok2 : jsStringOf (extractAccessToken data) = tok := by
          simp [refreshBodyRun, ht] at hok
          exact hok
        refine ⟨1, 2, by omega, ?_, ?_⟩
        · simp [refreshRetryRun, refreshBodyRun, ht, hok2]
        · simp [refreshRetryRun, refreshBodyRun, ht, hok2]
      · simp [refreshBodyRun, ht] at hok

theorem retry_carries_new_token_witness :
    configAuthHeader (withAuthHeader ⟨some "/orders", true, none⟩ "T") =
      some ("Bearer " ++ "T") ∧
    ∃ i j, i < j ∧
      (refreshRetryRun ⟨some "/orders", true, none⟩
          (.ok (.vobj [("accessToken", .vstr "T")])) none).get? i =
        some (.storeToken "T") ∧
      (refreshRetryRun ⟨some "/orders", true, none⟩
          (.ok (.vobj [("accessToken", .vstr "T")])) none).get? j =
        some (.issueRetry (withAuthHeader ⟨some "/orders", true, none⟩ "T")) :=
  retry_carries_new_token ⟨some "/orders", true, none⟩
    (.ok (.vobj [("accessToken", .vstr "T")])) none "T"
    (by simp [refreshBodyRun, extractAccessToken, getField, jsCoalesce,
          isObjectType, JSVal.truthy, jsStringOf])

/-- C3: when the refresh fails — the POST rejects (network error or
non-2xx) or the 2xx body carries no truthy access token — every caller
awaiting the shared promise is delivered that failure, the catch block
clears both stored session keys, and the browser is sent to
`/login?next=<encoded original destination>`, the destination defaulting
to `/admin` when pathname and search are empty. -/
theorem refresh_failure_clears_and_redirects (cfg : RetryableConfig)
    (post : Except String JSVal) (e : String) (loc : WindowLoc)
    (st : SessionState) (rs : RefreshState) (p : Nat)
    (hfail : (refreshBodyRun post).snd = .fail e)
    (hwin : st.window = some loc)
    (hinv : RefreshInv rs) (hp : rs.refreshing = some p) :
    (refreshStep rs (.settle p (.fail e))).delivered =
      rs.delivered ++ rs.waiters.map (fun w => (w.fst, p, .fail e)) ∧
    refreshRetryRun cfg post (some loc) =
      [.postRefresh, .clearSession, .navigate (loginRedirectUrl loc),
        .rejectError e] ∧
    (runActions st (refreshRetryRun cfg post (some loc))).accessToken = none ∧
    (runActions st (refreshRetryRun cfg post (some loc))).me = none ∧
    (runActions st (refreshRetryRun cfg post (some loc))).navigatedTo =
      some (loginRedirectUrl loc) ∧
    loginRedirectUrl loc =
      "/login?next=" ++ encodeURIComponent (jsOrStr (loc.pathname ++ loc.search) "/admin") := by
  have htrace : refreshRetryRun cfg post (some loc) =
      [.postRefresh, .clearSession, .navigate (loginRedirectUrl loc),
        .rejectError e] := by
    cases post with
    | error e2 =>
      have : e2 = e := by
        simpa [refreshBodyRun] using hfail
      subst this
      simp [refreshRetryRun, refreshBodyRun]
    | ok data =>
      by_cases ht : (extractAccessToken data).truthy
      · simp [refreshBodyRun, ht] at hfail
      · have : "Refresh OK mas não retornou accessToken" = e := by
          simpa [refreshBodyRun, ht] using hfail
        subst this
        simp [refreshRetryRun, refreshBodyRun, ht]
  refine ⟨(settle_delivers_to_all rs p (.fail e) hinv hp).1, htrace, ?_, ?_, ?_, rfl⟩
  · rw [htrace]
    simp [runActions, applyAction, hwin]
  · rw [htrace]
    simp [runActions, applyAction, hwin]
  · rw [htrace]
    simp [runActions, applyAction, hwin]

theorem refresh_failure_clears_and_redirects_witness :
    (refreshStep ⟨some 0, [0], 1, [(0, 0)], []⟩
        (.settle 0 (.fail "boom"))).delivered =
      [] ++ [(0, 0)].map (fun w => (w.fst, 0, RefreshOutcome.fail "boom")) ∧
    refreshRetryRun ⟨some "/orders", true, none⟩ (.error "boom")
        (some ⟨"/admin/orders", "?page=2"⟩) =
      [.postRefresh, .clearSession,
        .navigate (loginRedirectUrl ⟨"/admin/orders", "?page=2"⟩),
        .rejectError "boom"] ∧
    (runActions ⟨some "t", some "m", some ⟨"/admin/orders", "?page=2"⟩, none⟩
        (refreshRetryRun ⟨some "/orders", true, none⟩ (.error "boom")
          (some ⟨"/admin/orders", "?page=2"⟩))).accessToken = none ∧
    (runActions ⟨some "t", some "m", some ⟨"/admin/orders", "?page=2"⟩, none⟩
        (refreshRetryRun ⟨some "/orders", true, none⟩ (.error "boom")
          (some ⟨"/admin/orders", "?page=2"⟩))).me = none ∧
    (runActions ⟨some "t", some "m", some ⟨"/admin/orders", "?page=2"⟩, none⟩
        (refreshRetryRun ⟨some "/orders", true, none⟩ (.error "boom")
          (some ⟨"/admin/orders", "?page=2"⟩))).navigatedTo =
      some (loginRedirectUrl ⟨"/admin/orders", "?page=2"⟩) ∧
    loginRedirectUrl ⟨"/admin/orders", "?page=2"⟩ =
      "/login?next=" ++
        encodeURIComponent (jsOrStr ("/admin/orders" ++ "?page=2") "/admin") :=
  refresh_failure_clears_and_redirects ⟨some "/orders", true, none⟩
    (.error "boom") "boom" ⟨"/admin/orders", "?page=2"⟩
    ⟨some "t", some "m", some ⟨"/admin/orders", "?page=2"⟩, none⟩
    ⟨some 0, [0], 1, [(0, 0)], []⟩ 0 rfl rfl ⟨rfl, rfl⟩ rfl

theorem pickPrimaryImage_spec_witness :
    (⟨"i2", "u2", none, some true, some 5, none, none⟩ : ProductImage) ∈
      [(⟨"i1", "u1", none, none, some 0, none, none⟩ : ProductImage),
        ⟨"i2", "u2", none, some true, some 5, none, none⟩] ∧
    (⟨"i2", "u2", none, some true, some 5, none, none⟩ :
        ProductImage).isPrimary.getD false = true ∧
    ∃ y, y ∈ [(⟨"i1", "u1", none, none, some 0, none, none⟩ : ProductImage),
        ⟨"i2", "u2", none, some true, some 5, none, none⟩] ∧
      y.isPrimary.getD false = true ∧
      pickPrimaryImage
          (some [⟨"i1", "u1", none, none, some 0, none, none⟩,
            ⟨"i2", "u2", none, some true, some 5, none, none⟩]) =
        some y.url :=
  ⟨by decide, by decide,
   pickPrimaryImage_spec.2.1
     [⟨"i1", "u1", none, none, some 0, none, none⟩,
       ⟨"i2", "u2", none, some true, some 5, none, none⟩]
     ⟨"i2", "u2", none, some true, some 5, none, none⟩ (by decide) (by decide)⟩

theorem stableKey_ws_free_and_bounded_witness :
    'a' ∈ (stableKey [.prim (.str "a b"), .arr [.num 3]]).toList ∧
    jsWhitespace 'a' = false ∧
    (stableKey [.prim (.str "a b"), .arr [.num 3]]).length ≤ 160 :=
  ⟨by decide,
   (stableKey_ws_free_and_bounded [.prim (.str "a b"), .arr [.num 3]]).1 'a'
     (by decide),
   (stableKey_ws_free_and_bounded [.prim (.str "a b"), .arr [.num 3]]).2⟩

end WebAdmin
